import Mathlib

/-!
Verification of the C++ loop-nest code generator (`torch/_inductor/codegen/cpp.py`).

This file shallowly embeds the data model and the operations of the code
generator and proves properties about them:

* reduction identity values and combine rules (`reduction_init`,
  `reduction_combine`, the argmax/argmin accumulator update emitted by
  `CppKernel.reduction`);
* the atomic-add store-mode selection of `CppKernel.store`;
* re-binding behaviour of `CppKernel.set_ranges`;
* the parallel-depth heuristic `CppKernel.decide_parallel_depth`;
* the `WorkSharing` coordinator;
* the main/tail split of `LoopLevel.split_with_tiling`;
* the vectorization-legality checker `CppVecKernelChecker` together with its
  operation proxy `VecCheckerProxy`.

Machine floating-point values are modelled as extended rationals
(`WithBot (WithTop ℚ)`): `⊥` stands for `-infinity()` and `⊤` for
`+infinity()`; NaN does not occur in any of the reasoned-about expressions.
Symbolic sizes and size hints are modelled as naturals, `ir.IndexingDiv`
as natural floor division.
-/

/-- The torch dtypes appearing in `DTYPE_TO_CPP`. -/
inductive TorchDtype where
  | float32
  | float64
  | float16
  | bfloat16
  | int64
  | int32
  | int16
  | int8
  | uint8
  | torchBool
  deriving DecidableEq

/-- `torch._prims_common.is_float_dtype`: the floating-point dtypes. -/
def is_float_dtype : TorchDtype → Bool
  | .float32 | .float64 | .float16 | .bfloat16 => true
  | _ => false

/-- `std::numeric_limits<T>::min()` for the integral dtypes
(0 for the float dtypes, where the code never uses it). -/
def dtype_int_min : TorchDtype → ℤ
  | .int64 => -(2 ^ 63)
  | .int32 => -(2 ^ 31)
  | .int16 => -(2 ^ 15)
  | .int8 => -(2 ^ 7)
  | .uint8 => 0
  | .torchBool => 0
  | _ => 0

/-- `std::numeric_limits<T>::max()` for the integral dtypes. -/
def dtype_int_max : TorchDtype → ℤ
  | .int64 => 2 ^ 63 - 1
  | .int32 => 2 ^ 31 - 1
  | .int16 => 2 ^ 15 - 1
  | .int8 => 2 ^ 7 - 1
  | .uint8 => 2 ^ 8 - 1
  | .torchBool => 1
  | _ => 0

/-- The reduction kinds of `RTYPE_TO_CPP`. -/
inductive ReductionType where
  | sum
  | min
  | max
  | argmin
  | argmax
  | any
  deriving DecidableEq

/-- Extended rationals: the value domain used for the scalar semantics of
the emitted reduction code. `⊥` is `-infinity()`, `⊤` is `+infinity()`. -/
abbrev ExtQ := WithBot (WithTop ℚ)

/-- Embed a rational as a finite extended rational. -/
def qv (q : ℚ) : ExtQ := ((q : WithTop ℚ) : ExtQ)

/-- A value is representable in an integral dtype when it is an integer
between the dtype's `numeric_limits` min and max. Every non-NaN value is
representable in a float dtype in this model. -/
def valid_value (d : TorchDtype) (x : ExtQ) : Prop :=
  if is_float_dtype d then True
  else ∃ n : ℤ, x = qv (n : ℚ) ∧ dtype_int_min d ≤ n ∧ n ≤ dtype_int_max d

/-- `reduction_init(reduction_type, dtype)` (cpp.py): the accumulator
initialization value per reduction kind and element type. `sum`/`any`
initialize to `0`; `max`/`argmax` to `-infinity()` for float dtypes and
`numeric_limits::min()` otherwise; `min`/`argmin` to `+infinity()` for
float dtypes and `numeric_limits::max()` otherwise. -/
def reduction_init (reduction_type : ReductionType) (dtype : TorchDtype) : ExtQ :=
  match reduction_type with
  | .sum | .any => 0
  | .max | .argmax =>
      if is_float_dtype dtype then (⊥ : ExtQ) else qv ((dtype_int_min dtype : ℤ) : ℚ)
  | .min | .argmin =>
      if is_float_dtype dtype then (⊤ : ExtQ) else qv ((dtype_int_max dtype : ℤ) : ℚ)

/-- Value-level semantics of one combine step of the emitted reduction code:
`reduction_combine` emits `var += next` for `sum`, `var = var || next` for
`any` and `var = std::min/max(var, next)` for `min`/`max`; for
`argmax`/`argmin`, `CppKernel.reduction` emits
`if (tmp.value < value) { ... tmp.value = value; }` (comparison `>` for
argmin), whose effect on the value field is taken here. -/
def reduction_combine (reduction_type : ReductionType) (acc x : ExtQ) : ExtQ :=
  match reduction_type with
  | .sum => acc + x
  | .any => if acc ≠ 0 ∨ x ≠ 0 then 1 else 0
  | .min => min acc x
  | .max => max acc x
  | .argmax => if acc < x then x else acc
  | .argmin => if x < acc then x else acc

/-- The paired accumulator declared by `argmax_argmin_prefix`:
`struct IndexValue_<n> {size_t index; T value;}`, seeded `{0, init}`. -/
structure IndexValue where
  index : ℕ
  value : ExtQ
  deriving DecidableEq

/-- One iteration of the scalar argmax reduction emitted by
`CppKernel.reduction` (`compare_op` is `<` for argmax):
`if (tmp.value < value) { tmp.index = i; tmp.value = value; }`. -/
def argmax_combine (acc : IndexValue) (i : ℕ) (v : ExtQ) : IndexValue :=
  if acc.value < v then { index := i, value := v } else acc

/-- Running the emitted scalar argmax reduction over a list of values
(element `i` of the list is seen at iteration-variable value `i`),
starting from the accumulator `{0, reduction_init("argmax", float32)}`. -/
def argmax_reduce (vals : List ExtQ) : IndexValue :=
  vals.enum.foldl (fun acc p => argmax_combine acc p.1 p.2)
    { index := 0, value := reduction_init .argmax .float32 }

/-- Store modes: `CppKernel.store` accepts `mode=None` and
`mode="atomic_add"`; any other mode raises `NotImplementedError`. -/
inductive StoreMode where
  | atomic_add
  | other_mode
  deriving DecidableEq

/-- The statement shapes `CppKernel.store` can emit:
`var[index] = value;`, `var[index] += value;`, or
`atomic_add(&var[index], value);`. -/
inductive StoreLine where
  | assign
  | nonatomic_add
  | atomic_add_call
  deriving DecidableEq

/-- Failure modes of the embedded operations: a failed `assert` or a
`NotImplementedError`. -/
inductive CgError where
  | assertionError
  | notImplementedError
  deriving DecidableEq

/-- `CppKernel.store(name, index, value, mode)` statement selection:
`mode=None` emits a plain assignment; for `mode="atomic_add"` the code
emits `var[index] += value;` when `not config.cpp.dynamic_threads and
self.num_threads == 1`, else `atomic_add(&var[index], value);`. -/
def cpp_kernel_store (dynamic_threads : Bool) (num_threads : ℕ)
    (mode : Option StoreMode) : Except CgError StoreLine :=
  match mode with
  | none => Except.ok StoreLine.assign
  | some StoreMode.atomic_add =>
      if dynamic_threads = false ∧ num_threads = 1 then Except.ok StoreLine.nonatomic_add
      else Except.ok StoreLine.atomic_add_call
  | some StoreMode.other_mode => Except.error CgError.notImplementedError

/-- The iteration-space binding state of a `CppKernel`: `call_ranges`,
`ranges`, `itervars` and `reduction_depth`, all `None` until the first
`set_ranges`. Iteration variables `i0, i1, ...` are modelled by their
indices; range extents are an arbitrary type `α` with decidable equality
(structural equality of the symbolic extents). -/
structure CppKernelRanges (α : Type) where
  call_ranges : Option (List α)
  ranges : Option (List α)
  itervars : Option (List ℕ)
  reduction_depth : Option ℕ
  deriving DecidableEq

/-- A freshly constructed kernel: nothing bound yet. -/
def unbound_kernel {α : Type} : CppKernelRanges α := ⟨none, none, none, none⟩

/-- Python truthiness of the `call_ranges` field as tested by
`if self.call_ranges:` — `None` and the empty tuple are both falsy. -/
def call_ranges_bound {α : Type} (o : Option (List α)) : Bool :=
  match o with
  | none => false
  | some l => !l.isEmpty

/-- `CppKernel.set_ranges(lengths, reduction_lengths)`: if `call_ranges`
is truthy, assert that it equals the concatenated tuple and that the
stored `reduction_depth` equals `len(lengths)`, and return the stored
itervars split at the stored reduction depth; otherwise bind
`call_ranges`, `ranges` (each extent passed through `rename`, modelling
`rename_indexing`), fresh itervars `i0..i(n-1)` and the reduction depth,
and return the fresh split. -/
def set_ranges {α : Type} [DecidableEq α] (rename : α → α) (s : CppKernelRanges α)
    (lengths reduction_lengths : List α) :
    Except CgError (CppKernelRanges α × List ℕ × List ℕ) :=
  if call_ranges_bound s.call_ranges then
    if s.call_ranges = some (lengths ++ reduction_lengths) then
      if s.reduction_depth = some lengths.length then
        Except.ok (s, (s.itervars.getD []).take (s.reduction_depth.getD 0),
                      (s.itervars.getD []).drop (s.reduction_depth.getD 0))
      else Except.error CgError.assertionError
    else Except.error CgError.assertionError
  else
    let cr := lengths ++ reduction_lengths
    let iv := List.range cr.length
    Except.ok (⟨some cr, some (cr.map rename), some iv, some lengths.length⟩,
               iv.take lengths.length, iv.drop lengths.length)

/-- The `LoopLevel` dataclass: iteration variable, size, offset
(default 0), steps (default 1), parallel marker, collapsed marker,
reduction-kind map and the list of inner levels. The non-owning `parent`
back-reference and the process-wide ISA fields are not part of the purely
functional model; sizes are naturals. -/
inductive LoopLevel where
  | mk (var : ℕ) (size : ℕ) (offset : ℕ) (steps : ℕ) (parallel : ℕ)
       (collapsed : Bool) (reduction_var_map : List (String × ReductionType))
       (inner : List LoopLevel)

def LoopLevel.var : LoopLevel → ℕ
  | .mk v _ _ _ _ _ _ _ => v

def LoopLevel.size : LoopLevel → ℕ
  | .mk _ s _ _ _ _ _ _ => s

def LoopLevel.offset : LoopLevel → ℕ
  | .mk _ _ o _ _ _ _ _ => o

def LoopLevel.steps : LoopLevel → ℕ
  | .mk _ _ _ st _ _ _ _ => st

def LoopLevel.parallel : LoopLevel → ℕ
  | .mk _ _ _ _ p _ _ _ => p

def LoopLevel.reduction_var_map : LoopLevel → List (String × ReductionType)
  | .mk _ _ _ _ _ _ r _ => r

def LoopLevel.inner : LoopLevel → List LoopLevel
  | .mk _ _ _ _ _ _ _ i => i

/-- The inner `do_split_with_tiling` of `LoopLevel.split_with_tiling`:
the main copy keeps the variable, gets range `IndexingDiv(size, factor)`
and the constructor defaults offset 0 and steps 1; the tail copy gets
offset `IndexingDiv(size, factor) * factor` and range `size`. Both
inherit `parallel` and `reduction_var_map`, clear `collapsed`, and
deep-clone the inner levels (cloning is the identity on immutable
values). -/
def LoopLevel.do_split_with_tiling (l : LoopLevel) (factor : ℕ) : LoopLevel × LoopLevel :=
  let main_loop_range := l.size / factor
  (LoopLevel.mk l.var main_loop_range 0 1 l.parallel false l.reduction_var_map l.inner,
   LoopLevel.mk l.var l.size (main_loop_range * factor) 1 l.parallel false
     l.reduction_var_map l.inner)

/-- `LoopLevel.split_with_tiling(depth, factor)`: at depth 0 perform the
split (the parent's child-list surgery is pointer bookkeeping outside the
functional model); otherwise assert a single inner level and descend. -/
def LoopLevel.split_with_tiling (l : LoopLevel) (depth factor : ℕ) :
    Except CgError (LoopLevel × LoopLevel) :=
  match depth with
  | 0 => Except.ok (l.do_split_with_tiling factor)
  | d + 1 =>
      match l.inner with
      | [child] => child.split_with_tiling d factor
      | _ => Except.error CgError.assertionError
  termination_by depth

/-- The loop body of `CppKernel.decide_parallel_depth`: iterate over the
leading range extents (their size hints); stop once the accumulated
parallel factor reaches the thread count (`par >= 2 * threads or
par == threads`) or the remaining per-thread work drops below the
configured minimum chunk size (`seq // threads < min_chunk_size`; after
the first `seq /= hint` this is Python float floor division, modelled by
the rational floor). Otherwise add the level: multiply the factor by the
extent and divide the remaining work by it (true division). -/
def decide_parallel_depth_loop (threads min_chunk : ℕ) :
    List ℕ → ℚ → ℕ → ℕ → ℕ
  | [], _seq, _par, depth => depth
  | hint :: rest, seq, par, depth =>
      if 2 * threads ≤ par ∨ par = threads then depth
      else if ⌊seq / (threads : ℚ)⌋ < (min_chunk : ℤ) then depth
      else decide_parallel_depth_loop threads min_chunk rest (seq / (hint : ℚ))
        (par * hint) (depth + 1)

/-- `CppKernel.decide_parallel_depth(ranges, threads)`: run the greedy
loop starting from factor 1, depth 0 and total work `seq` (the kernel's
size hint — the product of all call ranges); if `config.cpp.dynamic_threads`
is set and no level qualified although at least one range exists, force
depth 1 so the OMP runtime manages serial vs. parallel. -/
def decide_parallel_depth (ranges : List ℕ) (seq : ℚ) (threads min_chunk : ℕ)
    (dynamic_threads : Bool) : ℕ :=
  let depth := decide_parallel_depth_loop threads min_chunk ranges seq 1 0
  if dynamic_threads = true ∧ depth = 0 ∧ ranges ≠ [] then 1 else depth

/-- The greedy rule in the spec's own words (reference definition for the
refinement proof): stop once `factor ≥ 2×threads` or `factor == threads`,
or once `remaining_total_work / threads < min_chunk_size` with exact
division; otherwise accumulate the level. -/
def greedy_parallel_depth_loop (threads min_chunk : ℕ) :
    List ℕ → ℚ → ℕ → ℕ → ℕ
  | [], _seq, _par, depth => depth
  | hint :: rest, seq, par, depth =>
      if 2 * threads ≤ par ∨ par = threads then depth
      else if seq / (threads : ℚ) < (min_chunk : ℚ) then depth
      else greedy_parallel_depth_loop threads min_chunk rest (seq / (hint : ℚ))
        (par * hint) (depth + 1)

/-- The `WorkSharing` coordinator state: whether a parallel region is
open (`in_parallel`), the thread count recorded at the last region
opening (`num_threads`, `None` before the first), and the number of
currently open parallel-region scopes (the depth of the `ExitStack`). -/
structure WorkSharingState where
  in_parallel : Bool
  num_threads : Option ℕ
  open_regions : ℕ
  deriving DecidableEq

/-- `WorkSharing.__init__`: not in parallel, no thread count recorded. -/
def ws_init : WorkSharingState := ⟨false, none, 0⟩

/-- `WorkSharing.close`: pop every entered scope and leave parallel
(the recorded thread count is not cleared). -/
def ws_close (s : WorkSharingState) : WorkSharingState :=
  { s with in_parallel := false, open_regions := 0 }

/-- `WorkSharing.parallel(threads)`: when already inside a region with a
different thread count, close it first; then, when not inside a region,
record the thread count, emit the parallel pragma and enter one scope. -/
def ws_parallel (s : WorkSharingState) (threads : ℕ) : WorkSharingState :=
  let s1 := if s.in_parallel = true ∧ s.num_threads ≠ some threads then ws_close s else s
  if s1.in_parallel = false then
    { in_parallel := true, num_threads := some threads,
      open_regions := s1.open_regions + 1 }
  else s1

/-- `WorkSharing.single`: only emits a pragma when in parallel; the
coordinator state is unchanged. -/
def ws_single (s : WorkSharingState) : WorkSharingState := s

/-- The coordinator operations issued by the loop-nest codegen. -/
inductive WSOp where
  | parallel (threads : ℕ)
  | single
  | close

/-- One coordinator call. -/
def ws_step (s : WorkSharingState) : WSOp → WorkSharingState
  | .parallel t => ws_parallel s t
  | .single => ws_single s
  | .close => ws_close s

/-- A sequence of coordinator calls starting from the initial state. -/
def ws_run (ops : List WSOp) : WorkSharingState :=
  ops.foldl ws_step ws_init

/-- At most one parallel region is open, and `in_parallel` tracks it. -/
def ws_invariant (s : WorkSharingState) : Prop :=
  s.open_regions ≤ 1 ∧ (s.in_parallel = true ↔ s.open_regions = 1)

/-- An index expression through its affine expansion in the iteration
variables: `coeff v` is the coefficient of iteration variable `v` in
`sympy.expand(index)` and `const` collects the variable-free part. The
checker's two legality tests only inspect the innermost coefficient. -/
structure IndexExpr where
  coeff : ℕ → ℤ
  const : ℤ

/-- `CppVecKernel.is_single_step_var`: substituting `var + 1` for `var`
and simplifying the difference leaves the coefficient of `var`; the test
is `delta == 1`. -/
def is_single_step_var (v : ℕ) (index : IndexExpr) : Bool :=
  index.coeff v = 1

/-- `CppVecKernel.is_var_irrevelant`: the expanded index does not mention
`var`, i.e. its coefficient is zero. -/
def is_var_irrevelant (v : ℕ) (index : IndexExpr) : Bool :=
  index.coeff v = 0

/-- `CppVecKernelChecker.is_legal_data_access`: broadcast or unit step. -/
def is_legal_data_access (v : ℕ) (index : IndexExpr) : Bool :=
  is_var_irrevelant v index || is_single_step_var v index

/-- The state of `CppVecKernelChecker` observed by the dry run: the
`simd_vec` verdict, the bound iteration variables and the CSE fresh-name
counter (advanced by the proxy operations that allocate a temporary). -/
structure VecChecker where
  simd_vec : Bool
  itervars : List ℕ
  cse_count : ℕ
  deriving DecidableEq

/-- `CppVecKernelChecker.could_vec`: with no iteration variables the
access is never vectorizable; otherwise the innermost variable must be
absent from the index or step through it with coefficient one. -/
def could_vec (s : VecChecker) (index : IndexExpr) : Bool :=
  match s.itervars.getLast? with
  | none => false
  | some v => is_legal_data_access v index

/-- `CppVecKernelChecker.load`: dtypes other than float32 (= float),
bool and uint8 set the verdict false and return it; otherwise the
verdict is conjoined with the access legality and returned. The buffer
dtype lookup `V.graph.get_dtype(name)` is the `get_dtype` argument;
`rename_indexing` preserves the affine shape and is the identity here. -/
def checker_load (get_dtype : String → TorchDtype) (s : VecChecker)
    (name : String) (index : IndexExpr) : VecChecker × Bool :=
  if get_dtype name ∈ [TorchDtype.float32, TorchDtype.torchBool, TorchDtype.uint8] then
    let b := s.simd_vec && could_vec s index
    ({ s with simd_vec := b }, b)
  else
    ({ s with simd_vec := false }, false)

/-- Python's `"buf" in name` substring test. -/
def buf_in_name (name : String) : Bool :=
  decide (List.IsInfix "buf".data name.data)

/-- `CppVecKernelChecker.store`: dtypes other than float32 set the
verdict false and return it (before the `"buf" in name` assertion); a
truthy store mode sets the verdict false and returns `False`; otherwise
the verdict is conjoined with the access legality and returned. -/
def checker_store (get_dtype : String → TorchDtype) (s : VecChecker)
    (name : String) (index : IndexExpr) (mode : Option StoreMode) :
    Except CgError (VecChecker × Bool) :=
  if get_dtype name ∈ [TorchDtype.float32] then
    if buf_in_name name then
      match mode with
      | some _ => Except.ok ({ s with simd_vec := false }, false)
      | none =>
          let b := s.simd_vec && could_vec s index
          Except.ok ({ s with simd_vec := b }, b)
    else Except.error CgError.assertionError
  else Except.ok ({ s with simd_vec := false }, false)

/-- `CppVecKernelChecker.reduction`: only float32/float32 with kind
`max`, `min` or `sum` passes; anything else sets the verdict false.
The current verdict is returned. -/
def checker_reduction (s : VecChecker) (dtype src_dtype : TorchDtype)
    (reduction_type : ReductionType) : VecChecker × Bool :=
  if dtype = TorchDtype.float32 ∧ src_dtype = TorchDtype.float32 ∧
      (reduction_type = ReductionType.max ∨ reduction_type = ReductionType.min ∨
       reduction_type = ReductionType.sum) then
    (s, s.simd_vec)
  else
    ({ s with simd_vec := false }, false)

/-- `fast_vec_list`: the staticmethod names of `CppVecOverrides`,
collected by the checker's constructor. -/
def fast_vec_list : List String :=
  ["add", "sub", "mul", "div", "abs", "sin", "cos", "exp", "erf", "sqrt",
   "rsqrt", "pow", "log", "round", "floor", "ceil", "trunc", "fmod",
   "lgamma", "logical_and", "logical_or", "tanh", "reciprocal", "constant",
   "relu", "sigmoid", "neg", "floordiv", "truncdiv", "minimum", "maximum",
   "square", "where", "sign", "to_dtype", "expm1", "log1p"]

/-- The operation requests `VecCheckerProxy` intercepts during one dry
run: the explicitly defined `load`/`store`/`reduction`/`constant`/
`index_expr`/`indirect_indexing`/`masked`/`to_dtype` handlers and, for
every other opcode name, the closure produced by the `__getattr__`
staticmethod. The body of a `masked` node is the thunk of requests the
kernel would replay if it invoked it (a list here). -/
inductive VecOp where
  | load (name : String) (index : IndexExpr)
  | store (name : String) (index : IndexExpr) (mode : Option StoreMode)
  | reduction (dtype src_dtype : TorchDtype) (reduction_type : ReductionType)
  | constant (dtype : TorchDtype)
  | index_expr
  | indirect_indexing
  | masked (body : List VecOp)
  | to_dtype (dtype : TorchDtype)
  | generic (opname : String)

/-- One request dispatched through `VecCheckerProxy`: `load`, `store` and
`reduction` forward to the checker; `constant` accepts only
float32/int32; `index_expr` allocates a CSE temporary and rejects;
`indirect_indexing` rejects; `masked` allocates a CSE temporary and
returns it without invoking its body; `to_dtype` accepts only bool; a
generic opcode rejects unless its name is in `fast_vec_list`. -/
def vec_checker_step (get_dtype : String → TorchDtype) (s : VecChecker)
    (op : VecOp) : Except CgError VecChecker :=
  match op with
  | .load name index => Except.ok (checker_load get_dtype s name index).1
  | .store name index mode =>
      match checker_store get_dtype s name index mode with
      | Except.ok p => Except.ok p.1
      | Except.error e => Except.error e
  | .reduction dtype src_dtype reduction_type =>
      Except.ok (checker_reduction s dtype src_dtype reduction_type).1
  | .constant dtype =>
      if dtype ∈ [TorchDtype.float32, TorchDtype.int32] then Except.ok s
      else Except.ok { s with simd_vec := false }
  | .index_expr =>
      Except.ok { s with simd_vec := false, cse_count := s.cse_count + 1 }
  | .indirect_indexing => Except.ok { s with simd_vec := false }
  | .masked _body => Except.ok { s with cse_count := s.cse_count + 1 }
  | .to_dtype dtype =>
      if dtype = TorchDtype.torchBool then Except.ok s
      else Except.ok { s with simd_vec := false }
  | .generic opname =>
      if opname ∈ fast_vec_list then Except.ok s
      else Except.ok { s with simd_vec := false }

/-- One dry run: the node group's operation requests replayed against the
proxy in order; a raised assertion aborts the run. -/
def vec_checker_run (get_dtype : String → TorchDtype) :
    VecChecker → List VecOp → Except CgError VecChecker
  | s, [] => Except.ok s
  | s, op :: rest =>
      match vec_checker_step get_dtype s op with
      | Except.ok s1 => vec_checker_run get_dtype s1 rest
      | Except.error e => Except.error e

theorem qv_le_qv {a b : ℚ} (h : a ≤ b) : qv a ≤ qv b := by
  unfold qv
  exact WithBot.coe_le_coe.mpr (WithTop.coe_le_coe.mpr h)

/-- Claim C4: the scalar argmax reduction keeps the first-seen maximal
index: the accumulator is overwritten exactly when its value is strictly
less than the candidate, so ties keep the existing (earlier) index; for
input values `[3, 5, 5, 2]` the reduction reports index `1`, not `2`. -/
theorem argmax_first_seen_tie_break :
    (∀ (acc : IndexValue) (i : ℕ) (v : ExtQ),
        ¬ acc.value < v → argmax_combine acc i v = acc) ∧
    (∀ (acc : IndexValue) (i : ℕ) (v : ExtQ),
        acc.value < v → argmax_combine acc i v = { index := i, value := v }) ∧
    (∀ (acc : IndexValue) (i : ℕ) (v : ExtQ),
        v = acc.value → argmax_combine acc i v = acc) ∧
    argmax_reduce [qv 3, qv 5, qv 5, qv 2] = { index := 1, value := qv 5 } := by
  refine ⟨?_, ?_, ?_, ?_⟩
  · intro acc i v h
    simp [argmax_combine, h]
  · intro acc i v h
    simp [argmax_combine, h]
  · intro acc i v h
    simp [argmax_combine, h]
  · decide

/-- Witness for claim C4's hypotheses at concrete inputs. -/
theorem argmax_first_seen_tie_break_witness :
    argmax_combine { index := 0, value := qv 5 } 2 (qv 5) = { index := 0, value := qv 5 } ∧
    argmax_combine { index := 0, value := qv 3 } 1 (qv 5) = { index := 1, value := qv 5 } := by
  constructor
  · exact argmax_first_seen_tie_break.1 _ 2 (qv 5) (by decide)
  · exact argmax_first_seen_tie_break.2.1 _ 1 (qv 5) (by decide)

/-- Claim C5: for every reduction kind and element type the initialization
value of `reduction_init` is the identity of the combine operation of
`reduction_combine`: `sum`/`any` initialize to `0`, `max`/`argmax` to
`-infinity()` (float) or the type minimum (integral), `min`/`argmin` to
`+infinity()` (float) or the type maximum (integral), and combining the
identity with any representable value `x` yields `x`. Inputs of an `any`
reduction are truth values `0`/`1` (booleans, whatever dtype stores them). -/
theorem reduction_init_is_identity (rt : ReductionType) (d : TorchDtype) (x : ExtQ)
    (hx : valid_value d x) (hany : rt = .any → x = 0 ∨ x = 1) :
    (reduction_init .sum d = 0 ∧ reduction_init .any d = 0) ∧
    (is_float_dtype d = true →
      reduction_init .max d = ⊥ ∧ reduction_init .argmax d = ⊥ ∧
      reduction_init .min d = ⊤ ∧ reduction_init .argmin d = ⊤) ∧
    (is_float_dtype d = false →
      reduction_init .max d = qv ((dtype_int_min d : ℤ) : ℚ) ∧
      reduction_init .min d = qv ((dtype_int_max d : ℤ) : ℚ)) ∧
    reduction_combine rt (reduction_init rt d) x = x := by
  refine ⟨⟨rfl, rfl⟩, ?_, ?_, ?_⟩
  · intro hf
    simp [reduction_init, hf]
  · intro hf
    simp [reduction_init, hf]
  · cases rt with
    | sum => simp [reduction_init, reduction_combine]
    | any =>
        rcases hany rfl with h | h <;>
          simp [reduction_init, reduction_combine, h]
    | max =>
        by_cases hf : is_float_dtype d = true
        · simp only [reduction_init, reduction_combine, hf, if_pos]
          exact max_eq_right bot_le
        · simp only [valid_value, hf, if_neg, Bool.false_eq_true, if_false] at hx
          obtain ⟨n, rfl, hlo, _⟩ := hx
          simp only [reduction_init, reduction_combine, hf, Bool.false_eq_true, if_false]
          exact max_eq_right (qv_le_qv (by exact_mod_cast hlo))
    | min =>
        by_cases hf : is_float_dtype d = true
        · simp only [reduction_init, reduction_combine, hf, if_pos]
          exact min_eq_right le_top
        · simp only [valid_value, hf, Bool.false_eq_true, if_false] at hx
          obtain ⟨n, rfl, _, hhi⟩ := hx
          simp only [reduction_init, reduction_combine, hf, Bool.false_eq_true, if_false]
          exact min_eq_right (qv_le_qv (by exact_mod_cast hhi))
    | argmax =>
        by_cases hf : is_float_dtype d = true
        · simp only [reduction_init, reduction_combine, hf, if_pos]
          rcases eq_or_ne x ⊥ with rfl | hne
          · simp
          · simp [hne.bot_lt]
        · simp only [valid_value, hf, Bool.false_eq_true, if_false] at hx
          obtain ⟨n, rfl, hlo, _⟩ := hx
          simp only [reduction_init, reduction_combine, hf, Bool.false_eq_true, if_false]
          rcases lt_or_eq_of_le (qv_le_qv (show ((dtype_int_min d : ℤ) : ℚ) ≤ (n : ℚ) by
            exact_mod_cast hlo)) with hlt | heq
          · simp [hlt]
          · simp [heq]
    | argmin =>
        by_cases hf : is_float_dtype d = true
        · simp only [reduction_init, reduction_combine, hf, if_pos]
          rcases eq_or_ne x ⊤ with rfl | hne
          · simp
          · simp [lt_top_iff_ne_top.mpr hne]
        · simp only [valid_value, hf, Bool.false_eq_true, if_false] at hx
          obtain ⟨n, rfl, _, hhi⟩ := hx
          simp only [reduction_init, reduction_combine, hf, Bool.false_eq_true, if_false]
          rcases lt_or_eq_of_le (qv_le_qv (show (n : ℚ) ≤ ((dtype_int_max d : ℤ) : ℚ) by
            exact_mod_cast hhi)) with hlt | heq
          · simp [hlt]
          · simp [heq]

/-- Witness for claim C5's hypotheses: the sum identity at a float value and
the max identity at an in-range int64 value. -/
theorem reduction_init_is_identity_witness :
    reduction_combine .sum (reduction_init .sum .float32) (qv 2) = qv 2 ∧
    reduction_combine .max (reduction_init .max .int64) (qv 7) = qv 7 := by
  constructor
  · exact (reduction_init_is_identity .sum .float32 (qv 2) (by
      simp [valid_value, is_float_dtype]) (by intro h; cases h)).2.2.2
  · exact (reduction_init_is_identity .max .int64 (qv 7) (by
      refine ⟨7, rfl, by norm_num [dtype_int_min], by norm_num [dtype_int_max]⟩)
      (by intro h; cases h)).2.2.2

theorem mem_main_blocks_iff (N W k : ℕ) (hW : 0 < W) :
    (∃ i < N / W, ∃ j < W, k = W * i + j) ↔ k < N / W * W := by
  constructor
  · rintro ⟨i, hi, j, hj, rfl⟩
    have hstep : W * (i + 1) = W * i + W := by ring
    calc W * i + j < W * (i + 1) := by omega
      _ ≤ W * (N / W) := Nat.mul_le_mul_left W hi
      _ = N / W * W := Nat.mul_comm _ _
  · intro hk
    refine ⟨k / W, ?_, k % W, Nat.mod_lt _ hW, (Nat.div_add_mod k W).symm⟩
    exact (Nat.div_lt_iff_lt_mul hW).mpr hk

/-- Claim C1: splitting a loop level of size `N` with tiling factor `W`
produces a main copy with offset 0, range `floor(N/W)` and unit steps
(each main iteration `i` covering the vector-width block
`[W*i, W*i + W)`), and a tail copy with offset `floor(N/W)*W` and range
`N`; the main blocks together with the tail indices `[floor(N/W)*W, N)`
cover exactly `[0, N)` with no overlap and no gap. -/
theorem split_with_tiling_exact_coverage (l : LoopLevel) (W : ℕ) (hW : 0 < W) :
    l.split_with_tiling 0 W = Except.ok (l.do_split_with_tiling W) ∧
    (l.do_split_with_tiling W).1.var = l.var ∧
    (l.do_split_with_tiling W).1.offset = 0 ∧
    (l.do_split_with_tiling W).1.size = l.size / W ∧
    (l.do_split_with_tiling W).1.steps = 1 ∧
    (l.do_split_with_tiling W).2.var = l.var ∧
    (l.do_split_with_tiling W).2.offset = l.size / W * W ∧
    (l.do_split_with_tiling W).2.size = l.size ∧
    (∀ k : ℕ,
      k < l.size ↔
        ((∃ i < (l.do_split_with_tiling W).1.size, ∃ j < W, k = W * i + j) ∨
         ((l.do_split_with_tiling W).2.offset ≤ k ∧
          k < (l.do_split_with_tiling W).2.size))) ∧
    (∀ k : ℕ,
      ¬((∃ i < (l.do_split_with_tiling W).1.size, ∃ j < W, k = W * i + j) ∧
        ((l.do_split_with_tiling W).2.offset ≤ k ∧
         k < (l.do_split_with_tiling W).2.size))) := by
  have hmain : (l.do_split_with_tiling W).1.size = l.size / W := by
    simp [LoopLevel.do_split_with_tiling, LoopLevel.size]
  have hoff : (l.do_split_with_tiling W).2.offset = l.size / W * W := by
    simp [LoopLevel.do_split_with_tiling, LoopLevel.offset]
  have htail : (l.do_split_with_tiling W).2.size = l.size := by
    simp [LoopLevel.do_split_with_tiling, LoopLevel.size]
  have hle : l.size / W * W ≤ l.size := Nat.div_mul_le_self l.size W
  refine ⟨by simp [LoopLevel.split_with_tiling], ?_, ?_, hmain, ?_, ?_, hoff, htail, ?_, ?_⟩
  · simp [LoopLevel.do_split_with_tiling, LoopLevel.var]
  · simp [LoopLevel.do_split_with_tiling, LoopLevel.offset]
  · simp [LoopLevel.do_split_with_tiling, LoopLevel.steps]
  · simp [LoopLevel.do_split_with_tiling, LoopLevel.var]
  · intro k
    rw [hmain, hoff, htail, mem_main_blocks_iff l.size W k hW]
    omega
  · intro k
    rw [hmain, hoff, htail, mem_main_blocks_iff l.size W k hW]
    omega

/-- Witness for claim C1 at a concrete loop level (size 10, factor 8):
the tail offset is `10 / 8 * 8` and index 9 is covered. -/
theorem split_with_tiling_exact_coverage_witness :
    ((LoopLevel.mk 0 10 0 1 0 false [] []).do_split_with_tiling 8).2.offset = 10 / 8 * 8 ∧
    (9 < (LoopLevel.mk 0 10 0 1 0 false [] []).size ↔
      ((∃ i < ((LoopLevel.mk 0 10 0 1 0 false [] []).do_split_with_tiling 8).1.size,
          ∃ j < 8, 9 = 8 * i + j) ∨
       (((LoopLevel.mk 0 10 0 1 0 false [] []).do_split_with_tiling 8).2.offset ≤ 9 ∧
        9 < ((LoopLevel.mk 0 10 0 1 0 false [] []).do_split_with_tiling 8).2.size))) := by
  have h := split_with_tiling_exact_coverage (LoopLevel.mk 0 10 0 1 0 false [] []) 8
    (by norm_num)
  exact ⟨by rw [h.2.2.2.2.2.2.1]; rfl, h.2.2.2.2.2.2.2.2.1 9⟩

/-- Claim C6: with `mode=None` a plain assignment is emitted; with
`mode="atomic_add"`, a non-atomic `+=` is emitted when the dynamic-threads
flag is unset and the kernel's thread count is 1, and the `atomic_add`
primitive otherwise (thread count above 1 or dynamic threads enabled). -/
theorem store_mode_selection (dynamic_threads : Bool) (num_threads : ℕ) :
    cpp_kernel_store dynamic_threads num_threads none = Except.ok StoreLine.assign ∧
    (dynamic_threads = false → num_threads = 1 →
      cpp_kernel_store dynamic_threads num_threads (some StoreMode.atomic_add) =
        Except.ok StoreLine.nonatomic_add) ∧
    (1 < num_threads ∨ dynamic_threads = true →
      cpp_kernel_store dynamic_threads num_threads (some StoreMode.atomic_add) =
        Except.ok StoreLine.atomic_add_call) := by
  refine ⟨rfl, ?_, ?_⟩
  · intro hdyn hone
    simp [cpp_kernel_store, hdyn, hone]
  · intro h
    have hno : ¬(dynamic_threads = false ∧ num_threads = 1) := by
      rcases h with h | h
      · rintro ⟨_, h1⟩; omega
      · rintro ⟨h0, _⟩; rw [h] at h0; cases h0
    simp [cpp_kernel_store, hno]

/-- Witness for claim C6: a single-threaded static kernel emits `+=`, a
4-thread kernel emits the atomic primitive. -/
theorem store_mode_selection_witness :
    cpp_kernel_store false 1 (some StoreMode.atomic_add) =
      Except.ok StoreLine.nonatomic_add ∧
    cpp_kernel_store false 4 (some StoreMode.atomic_add) =
      Except.ok StoreLine.atomic_add_call :=
  ⟨(store_mode_selection false 1).2.1 rfl rfl,
   (store_mode_selection false 4).2.2 (Or.inl (by norm_num))⟩

/-- Counterexample to claim C7 as stated: a kernel first bound to the
empty range tuple is treated as unbound by `if self.call_ranges:` (the
empty tuple is falsy), so a second `set_ranges` with a different,
non-empty range tuple succeeds instead of raising the assertion. -/
theorem set_ranges_empty_rebinding_counterexample :
    set_ranges (id : ℕ → ℕ) unbound_kernel [] [] =
      Except.ok (⟨some [], some [], some [], some 0⟩, [], []) ∧
    set_ranges (id : ℕ → ℕ) ⟨some [], some [], some [], some 0⟩ [5] [] =
      Except.ok (⟨some [5], some [5], some [0], some 1⟩, [0], []) ∧
    ([] : List ℕ) ≠ [5] :=
  ⟨rfl, rfl, by decide⟩

/-- Claim C7 (amended): on a kernel whose first binding had a non-empty
concatenated range tuple, a second `set_ranges` succeeds — returning the
unchanged state and the same split of the stored iteration variables —
if and only if the concatenated pointwise-plus-reduction tuple and the
reduction depth equal the first binding; otherwise it raises an assertion
failure and leaves no partial re-binding. (A first binding with the empty
tuple is treated as unbound, see the counterexample.) -/
theorem set_ranges_rebinding {α : Type} [DecidableEq α] (rename : α → α)
    (s : CppKernelRanges α) (lengths reduction_lengths cr0 : List α) (rd0 : ℕ)
    (hcr : s.call_ranges = some cr0) (hne : cr0 ≠ []) (hrd : s.reduction_depth = some rd0) :
    ((∃ r, set_ranges rename s lengths reduction_lengths = Except.ok r) ↔
      (cr0 = lengths ++ reduction_lengths ∧ rd0 = lengths.length)) ∧
    (cr0 = lengths ++ reduction_lengths → rd0 = lengths.length →
      set_ranges rename s lengths reduction_lengths =
        Except.ok (s, (s.itervars.getD []).take rd0, (s.itervars.getD []).drop rd0)) ∧
    (¬(cr0 = lengths ++ reduction_lengths ∧ rd0 = lengths.length) →
      set_ranges rename s lengths reduction_lengths = Except.error CgError.assertionError) := by
  have hbound : call_ranges_bound s.call_ranges = true := by
    rw [hcr]
    simp [call_ranges_bound, hne]
  by_cases h1 : cr0 = lengths ++ reduction_lengths
  · by_cases h2 : rd0 = lengths.length
    · have hok : set_ranges rename s lengths reduction_lengths =
          Except.ok (s, (s.itervars.getD []).take rd0, (s.itervars.getD []).drop rd0) := by
        unfold set_ranges
        rw [if_pos hbound, if_pos (by rw [hcr, h1]), if_pos (by rw [hrd, h2]), hrd]
        rfl
      exact ⟨⟨fun _ => ⟨h1, h2⟩, fun _ => ⟨_, hok⟩⟩, fun _ _ => hok,
        fun hno => absurd ⟨h1, h2⟩ hno⟩
    · have herr : set_ranges rename s lengths reduction_lengths =
          Except.error CgError.assertionError := by
        unfold set_ranges
        rw [if_pos hbound, if_pos (by rw [hcr, h1]), if_neg]
        intro hcontra
        rw [hrd] at hcontra
        exact h2 (Option.some_injective _ hcontra)
      refine ⟨⟨?_, ?_⟩, fun _ hh2 => absurd hh2 h2, fun _ => herr⟩
      · rintro ⟨r, hr⟩
        rw [herr] at hr
        cases hr
      · rintro ⟨_, hh2⟩
        exact absurd hh2 h2
  · have herr : set_ranges rename s lengths reduction_lengths =
        Except.error CgError.assertionError := by
      unfold set_ranges
      rw [if_pos hbound, if_neg]
      intro hcontra
      rw [hcr] at hcontra
      exact h1 (Option.some_injective _ hcontra)
    refine ⟨⟨?_, ?_⟩, fun hh1 _ => absurd hh1 h1, fun _ => herr⟩
    · rintro ⟨r, hr⟩
      rw [herr] at hr
      cases hr
    · rintro ⟨hh1, _⟩
      exact absurd hh1 h1

/-- Witness for claim C7 (amended): a kernel bound to ranges `([3], [4])`
re-bound with the identical tuple succeeds and returns the same split. -/
theorem set_ranges_rebinding_witness :
    set_ranges (id : ℕ → ℕ) ⟨some [3, 4], some [3, 4], some [0, 1], some 1⟩ [3] [4] =
      Except.ok (⟨some [3, 4], some [3, 4], some [0, 1], some 1⟩, [0], [1]) :=
  (set_ranges_rebinding (id : ℕ → ℕ) ⟨some [3, 4], some [3, 4], some [0, 1], some 1⟩
    [3] [4] [3, 4] 1 rfl (by decide) rfl).2.1 rfl rfl

theorem ws_step_invariant (s : WorkSharingState) (op : WSOp) (hinv : ws_invariant s) :
    ws_invariant (ws_step s op) := by
  cases op with
  | parallel t =>
      simp only [ws_step]
      by_cases hc : s.in_parallel = true ∧ s.num_threads ≠ some t
      · simp [ws_parallel, hc, ws_close, ws_invariant]
      · by_cases hp : s.in_parallel = false
        · have hopen : s.open_regions = 0 := by
            rcases hinv with ⟨hle, hiff⟩
            by_contra h0
            have h1 : s.open_regions = 1 := by omega
            have h2 := hiff.mpr h1
            rw [hp] at h2
            cases h2
          simp [ws_parallel, hc, hp, hopen, ws_invariant]
        · have hp' : s.in_parallel = true := by
            cases h : s.in_parallel
            · exact absurd h hp
            · rfl
          have hnum : s.num_threads = some t := by
            by_contra hne
            exact hc ⟨hp', hne⟩
          have heq : ws_parallel s t = s := by
            simp [ws_parallel, hc, hp', hnum]
          rw [heq]
          exact hinv
  | single => exact hinv
  | close => simp [ws_step, ws_close, ws_invariant]

theorem ws_run_invariant (ops : List WSOp) : ws_invariant (ws_run ops) := by
  rw [ws_run]
  have h : ∀ s, ws_invariant s → ws_invariant (ops.foldl ws_step s) := by
    induction ops with
    | nil => intro s hs; exact hs
    | cons op rest ih =>
        intro s hs
        exact ih _ (ws_step_invariant s op hs)
  exact h ws_init (by simp [ws_invariant, ws_init])

theorem ws_parallel_after (s : WorkSharingState) (t : ℕ) (hinv : ws_invariant s) :
    (ws_parallel s t).num_threads = some t ∧ (ws_parallel s t).open_regions = 1 := by
  by_cases hc : s.in_parallel = true ∧ s.num_threads ≠ some t
  · simp [ws_parallel, hc, ws_close]
  · by_cases hp : s.in_parallel = false
    · have hopen : s.open_regions = 0 := by
        rcases hinv with ⟨hle, hiff⟩
        by_contra h0
        have h1 : s.open_regions = 1 := by omega
        have h2 := hiff.mpr h1
        rw [hp] at h2
        cases h2
      simp [ws_parallel, hc, hp, hopen]
    · have hp' : s.in_parallel = true := by
        cases h : s.in_parallel
        · exact absurd h hp
        · rfl
      have hnum : s.num_threads = some t := by
        by_contra hne
        exact hc ⟨hp', hne⟩
      have hopen1 : s.open_regions = 1 := hinv.2.mp hp'
      simp [ws_parallel, hc, hp', hnum, hopen1]

/-- Claim C9: the `WorkSharing` coordinator never nests two parallel
regions: along every call sequence at most one region is open, after
every `parallel(t)` call the recorded thread count is `t` with exactly
one region open, and a `parallel(t)` call inside an open region with a
different thread count closes it before opening the new region. -/
theorem worksharing_no_nesting :
    (∀ ops : List WSOp, ws_invariant (ws_run ops)) ∧
    (∀ (ops : List WSOp) (t : ℕ),
      (ws_run (ops ++ [WSOp.parallel t])).num_threads = some t ∧
      (ws_run (ops ++ [WSOp.parallel t])).open_regions = 1) ∧
    (∀ (s : WorkSharingState) (t : ℕ),
      s.in_parallel = true → s.num_threads ≠ some t →
      ws_parallel s t = ⟨true, some t, 1⟩) := by
  refine ⟨ws_run_invariant, ?_, ?_⟩
  · intro ops t
    have happ : ws_run (ops ++ [WSOp.parallel t]) = ws_parallel (ws_run ops) t := by
      rw [ws_run, ws_run, List.foldl_append]
      rfl
    rw [happ]
    exact ws_parallel_after _ t (ws_run_invariant ops)
  · intro s t hp hne
    simp [ws_parallel, hp, hne, ws_close]

/-- Witness for claim C9: opening a 4-thread region inside an open
2-thread region closes the old region and opens exactly one new one. -/
theorem worksharing_no_nesting_witness :
    ws_parallel ⟨true, some 2, 1⟩ 4 = ⟨true, some 4, 1⟩ :=
  worksharing_no_nesting.2.2 ⟨true, some 2, 1⟩ 4 rfl (by decide)

/-- Claim C8: `decide_parallel_depth` implements the spec's greedy rule
(the code's floored `seq // threads < min_chunk_size` test agrees with
the spec's exact-division reading); with the dynamic-threads flag the
result is at least 1 whenever a range exists; and for ranges
`[1000, 4]` with total work 4000 and min-chunk-size 16 the returned
depth is at most 1 for every thread count. -/
theorem decide_parallel_depth_greedy :
    (∀ (threads min_chunk : ℕ) (ranges : List ℕ) (seq : ℚ) (par depth : ℕ),
      decide_parallel_depth_loop threads min_chunk ranges seq par depth =
        greedy_parallel_depth_loop threads min_chunk ranges seq par depth) ∧
    (∀ (ranges : List ℕ) (seq : ℚ) (threads min_chunk : ℕ), ranges ≠ [] →
      1 ≤ decide_parallel_depth ranges seq threads min_chunk true) ∧
    (∀ threads : ℕ, 1 ≤ threads → ∀ dyn : Bool,
      decide_parallel_depth [1000, 4] 4000 threads 16 dyn ≤ 1) := by
  refine ⟨?_, ?_, ?_⟩
  · intro threads min_chunk ranges
    induction ranges with
    | nil => intro seq par depth; rfl
    | cons hint rest ih =>
        intro seq par depth
        have hcond : (⌊seq / (threads : ℚ)⌋ < (min_chunk : ℤ)) ↔
            seq / (threads : ℚ) < (min_chunk : ℚ) := by
          rw [Int.floor_lt]
          norm_num
        by_cases h1 : 2 * threads ≤ par ∨ par = threads
        · simp [decide_parallel_depth_loop, greedy_parallel_depth_loop, h1]
        · by_cases h2 : ⌊seq / (threads : ℚ)⌋ < (min_chunk : ℤ)
          · simp [decide_parallel_depth_loop, greedy_parallel_depth_loop, h1, h2,
              hcond.mp h2]
          · simp only [decide_parallel_depth_loop, greedy_parallel_depth_loop,
              if_neg h1, if_neg h2, if_neg (fun hh => h2 (hcond.mpr hh))]
            exact ih _ _ _
  · intro ranges seq threads min_chunk hne
    by_cases h : decide_parallel_depth_loop threads min_chunk ranges seq 1 0 = 0
    · simp [decide_parallel_depth, h, hne]
    · simp only [decide_parallel_depth]
      rw [if_neg]
      · omega
      · rintro ⟨_, h0, _⟩
        exact h h0
  · intro T hT dyn
    have hL : decide_parallel_depth_loop T 16 [1000, 4] (4000 : ℚ) 1 0 ≤ 1 := by
      by_cases h1 : 2 * T ≤ 1 ∨ 1 = T
      · simp [decide_parallel_depth_loop, h1]
      · by_cases h2 : ⌊(4000 : ℚ) / (T : ℚ)⌋ < (16 : ℤ)
        · simp [decide_parallel_depth_loop, h1, h2]
        · have h16 : (16 : ℚ) ≤ 4000 / (T : ℚ) := by
            have h16' := Int.le_floor.mp (Int.not_lt.mp h2)
            exact_mod_cast h16'
          have hTpos : (0 : ℚ) < (T : ℚ) := by exact_mod_cast hT
          have h250 : (T : ℚ) ≤ 250 := by
            rw [le_div_iff₀ hTpos] at h16
            linarith
          have hT250 : T ≤ 250 := by exact_mod_cast h250
          simp only [decide_parallel_depth_loop, if_neg h1, if_neg h2]
          rw [if_pos (Or.inl (show 2 * T ≤ 1 * 1000 by omega))]
          split <;> omega
    simp only [decide_parallel_depth]
    split
    · omega
    · exact hL

/-- Witness for claim C8: thread count 4 gives depth at most 1 on
`[1000, 4]`, and dynamic threads force depth at least 1 on `[7]`. -/
theorem decide_parallel_depth_greedy_witness :
    decide_parallel_depth [1000, 4] 4000 4 16 false ≤ 1 ∧
    1 ≤ decide_parallel_depth [7] 7 3 16 true :=
  ⟨decide_parallel_depth_greedy.2.2 4 (by norm_num) false,
   decide_parallel_depth_greedy.2.1 [7] 7 3 16 (by decide)⟩

theorem checker_load_monotone (get_dtype : String → TorchDtype) (s : VecChecker)
    (name : String) (index : IndexExpr) (hs : s.simd_vec = false) :
    (checker_load get_dtype s name index).1.simd_vec = false := by
  unfold checker_load
  split
  · simp [hs]
  · rfl

theorem checker_store_monotone (get_dtype : String → TorchDtype) (s : VecChecker)
    (name : String) (index : IndexExpr) (mode : Option StoreMode)
    (hs : s.simd_vec = false) (p : VecChecker × Bool)
    (h : checker_store get_dtype s name index mode = Except.ok p) :
    p.1.simd_vec = false := by
  unfold checker_store at h
  split at h
  · split at h
    · split at h
      · cases h
        rfl
      · cases h
        simp [hs]
    · cases h
  · cases h
    rfl

theorem vec_checker_step_monotone (get_dtype : String → TorchDtype)
    (s : VecChecker) (op : VecOp) (hs : s.simd_vec = false) (s2 : VecChecker)
    (hstep : vec_checker_step get_dtype s op = Except.ok s2) :
    s2.simd_vec = false := by
  cases op with
  | load name index =>
      simp only [vec_checker_step, Except.ok.injEq] at hstep
      rw [← hstep]
      exact checker_load_monotone get_dtype s name index hs
  | store name index mode =>
      simp only [vec_checker_step] at hstep
      split at hstep
      · rename_i p hp
        simp only [Except.ok.injEq] at hstep
        rw [← hstep]
        exact checker_store_monotone get_dtype s name index mode hs p hp
      · cases hstep
  | reduction dtype src_dtype reduction_type =>
      simp only [vec_checker_step, Except.ok.injEq] at hstep
      rw [← hstep]
      unfold checker_reduction
      split
      · exact hs
      · rfl
  | constant dtype =>
      simp only [vec_checker_step] at hstep
      split at hstep <;> (cases hstep; first | exact hs | rfl)
  | index_expr =>
      simp only [vec_checker_step, Except.ok.injEq] at hstep
      rw [← hstep]
  | indirect_indexing =>
      simp only [vec_checker_step, Except.ok.injEq] at hstep
      rw [← hstep]
  | masked body =>
      simp only [vec_checker_step, Except.ok.injEq] at hstep
      rw [← hstep]
      exact hs
  | to_dtype dtype =>
      simp only [vec_checker_step] at hstep
      split at hstep <;> (cases hstep; first | exact hs | rfl)
  | generic opname =>
      simp only [vec_checker_step] at hstep
      split at hstep <;> (cases hstep; first | exact hs | rfl)

/-- Claim C2: the legality verdict is monotonically falsifiable: within
one dry run, once `simd_vec` is false, no subsequent operation request —
load, store, reduction, constant, index_expr, indirect_indexing,
to_dtype, masked, or any op dispatched through the proxy's generic
handler — sets it back to true. -/
theorem simd_vec_monotone (get_dtype : String → TorchDtype)
    (s : VecChecker) (ops : List VecOp) (hs : s.simd_vec = false)
    (s2 : VecChecker) (hrun : vec_checker_run get_dtype s ops = Except.ok s2) :
    s2.simd_vec = false := by
  induction ops generalizing s with
  | nil =>
      simp only [vec_checker_run, Except.ok.injEq] at hrun
      rw [← hrun]
      exact hs
  | cons op rest ih =>
      simp only [vec_checker_run] at hrun
      split at hrun
      · rename_i s1 hstep
        exact ih s1 (vec_checker_step_monotone get_dtype s op hs s1 hstep) hrun
      · cases hrun

/-- Witness for claim C2: a falsified verdict stays false across a
masked request. -/
theorem simd_vec_monotone_witness :
    (⟨false, [0], 1⟩ : VecChecker).simd_vec = false :=
  simd_vec_monotone (fun _ => TorchDtype.float32) ⟨false, [0], 0⟩
    [VecOp.masked []] rfl ⟨false, [0], 1⟩ rfl

/-- Counterexample to claim C3 as stated: `VecCheckerProxy.masked` never
invokes its body thunk, so a masked node whose body contains a
disallowed operation (here a store to an int64 buffer) leaves the
verdict true — while replaying that same store directly through the
proxy would set the verdict to false. -/
theorem masked_body_unchecked_counterexample :
    vec_checker_step (fun _ => TorchDtype.int64) ⟨true, [0], 0⟩
      (VecOp.masked [VecOp.store ("buf0") ⟨fun _ => 1, 0⟩ none]) =
      Except.ok ⟨true, [0], 1⟩ ∧
    vec_checker_step (fun _ => TorchDtype.int64) ⟨true, [0], 0⟩
      (VecOp.store ("buf0") ⟨fun _ => 1, 0⟩ none) =
      Except.ok ⟨false, [0], 0⟩ :=
  ⟨rfl, rfl⟩

/-- Claim C3 (amended): a masked operation is accepted structurally — it
does not itself change the verdict — but the operations inside its body
are not checked either: the proxy only allocates a fresh temporary and
returns it without invoking the body, so the verdict after a masked
request equals the verdict before, whatever the body contains. -/
theorem masked_structural_no_body_check (get_dtype : String → TorchDtype)
    (s : VecChecker) (body : List VecOp) :
    vec_checker_step get_dtype s (VecOp.masked body) =
      Except.ok { s with cse_count := s.cse_count + 1 } ∧
    ({ s with cse_count := s.cse_count + 1 } : VecChecker).simd_vec = s.simd_vec :=
  ⟨rfl, rfl⟩

/-- Claim C10: when the checker's kernel is bound to an empty iteration
space (no iteration variables), every load request and every store
request returns `False` and sets the verdict to false — `could_vec`
rejects outright when `len(self.itervars) == 0`, and the dtype paths
reject on their own. -/
theorem empty_iterspace_rejects_memory_access (get_dtype : String → TorchDtype)
    (s : VecChecker) (name : String) (index : IndexExpr) (mode : Option StoreMode)
    (hiter : s.itervars = []) (hbuf : buf_in_name name = true) :
    checker_load get_dtype s name index = ({ s with simd_vec := false }, false) ∧
    checker_store get_dtype s name index mode =
      Except.ok ({ s with simd_vec := false }, false) := by
  have hcv : could_vec s index = false := by
    simp [could_vec, hiter]
  constructor
  · unfold checker_load
    by_cases hd : get_dtype name ∈
        [TorchDtype.float32, TorchDtype.torchBool, TorchDtype.uint8]
    · rw [if_pos hd]
      simp [hcv]
    · rw [if_neg hd]
  · unfold checker_store
    by_cases hd : get_dtype name ∈ [TorchDtype.float32]
    · rw [if_pos hd, if_pos hbuf]
      cases mode with
      | some m => rfl
      | none => simp [hcv]
    · rw [if_neg hd]

/-- Witness for claim C10: a float32 load and store on a zero-dimensional
checker both report false. -/
theorem empty_iterspace_rejects_memory_access_witness :
    checker_load (fun _ => TorchDtype.float32) ⟨true, [], 0⟩ ("buf0")
      ⟨fun _ => 1, 0⟩ = (⟨false, [], 0⟩, false) ∧
    checker_store (fun _ => TorchDtype.float32) ⟨true, [], 0⟩ ("buf0")
      ⟨fun _ => 1, 0⟩ none = Except.ok (⟨false, [], 0⟩, false) :=
  empty_iterspace_rejects_memory_access (fun _ => TorchDtype.float32)
    ⟨true, [], 0⟩ ("buf0") ⟨fun _ => 1, 0⟩ none rfl (by decide)
